import Mathlib

/-!
# Verification of the pythonscriptdeck background-service plugin

Shallow embedding of the Stream Deck plugin sources:
* `src/unnamed/part_001` — `PythonBackgroundService` (registry, timers,
  executor output handling, settings normalization);
* `src/src/actions/python-service.ts` — `PythonService` action glue
  (event handlers, `checkSettingsComplete`, `getInterval`,
  `normalizeVenvPath`);
* `src/unnamed/part_000` — `PythonScript` one-shot action (same stdout /
  stderr handling).

JavaScript numbers are modelled as `Option ℚ`: `some q` is a finite number
of value `q`, `none` stands for the non-finite values (`NaN`, `±Infinity`),
which is adequate because the code only tests `Number.isFinite`, compares
with `0` and passes finite values through unchanged.
-/

namespace PyDeck

/-- A JavaScript number: `some q` is finite with value `q`, `none` is
`NaN` or `±Infinity` (the code only distinguishes finite / non-finite). -/
abbrev JsNumber := Option ℚ

/-- JavaScript `String.prototype.trim`: strip whitespace from both ends. -/
def jsTrim (s : String) : String :=
  String.mk
    (((s.data.dropWhile Char.isWhitespace).reverse.dropWhile Char.isWhitespace).reverse)

/-- Numeric value of a list of decimal digit characters, most significant
first (already validated to be digits). -/
def digitsVal (l : List Char) : Nat :=
  l.foldl (fun acc c => acc * 10 + (c.toNat - 48)) 0

/-- Parse the mantissa of a JS numeric literal: `digits`, `digits.digits`,
`digits.` or `.digits` (at least one digit overall). -/
def parseMantissa (l : List Char) : Option ℚ :=
  let intPart := l.takeWhile Char.isDigit
  let rest := l.drop intPart.length
  match rest with
  | [] => if intPart.isEmpty then none else some (digitsVal intPart)
  | '.' :: frac =>
      if frac.all Char.isDigit && !(intPart.isEmpty && frac.isEmpty) then
        some ((digitsVal intPart : ℚ) + (digitsVal frac : ℚ) / (10 : ℚ) ^ frac.length)
      else none
  | _ => none

/-- Parse an exponent part: optional sign followed by at least one digit. -/
def parseSignedExp (l : List Char) : Option Int :=
  match l with
  | '+' :: r => if !r.isEmpty && r.all Char.isDigit then some (digitsVal r : Int) else none
  | '-' :: r => if !r.isEmpty && r.all Char.isDigit then some (-(digitsVal r : Int)) else none
  | r => if !r.isEmpty && r.all Char.isDigit then some (digitsVal r : Int) else none

/-- Parse an unsigned JS numeric literal body: `Infinity` (non-finite,
hence `none` in this model) or mantissa with optional `e`/`E` exponent.
(The hexadecimal/binary/octal literal forms are not modelled; the settings
forms never produce them.) -/
def parseUnsigned (l : List Char) : Option ℚ :=
  if l = "Infinity".data then none
  else
    let mant := l.takeWhile (fun c => c ≠ 'e' && c ≠ 'E')
    let rest := l.drop mant.length
    match rest with
    | [] => parseMantissa mant
    | _ :: expPart => do
        let m ← parseMantissa mant
        let e ← parseSignedExp expPart
        some (m * (10 : ℚ) ^ e)

/-- Model of JavaScript `Number(string)`: trim whitespace, empty string is
`0`, otherwise optional sign and numeric body; unparsable strings give
`NaN` (`none`). -/
def jsNumberOfString (s : String) : JsNumber :=
  match (jsTrim s).data with
  | [] => some 0
  | '+' :: r => parseUnsigned r
  | '-' :: r => (parseUnsigned r).map (fun q => -q)
  | l => parseUnsigned l

/-- The `interval` field of the settings: `number | string | undefined`. -/
inductive IntervalVal where
  | undef : IntervalVal
  | num : JsNumber → IntervalVal
  | str : String → IntervalVal
deriving DecidableEq, Repr

/-- JS coercion applied to the interval field by `normalizeSettings`:
`typeof v === "string" ? Number(v) : v` (with `undefined` staying
non-numeric: `Number.isFinite(undefined)` is `false`). -/
def intervalRaw : IntervalVal → JsNumber
  | .undef => none
  | .num j => j
  | .str s => jsNumberOfString s

/-- `PythonServiceSettings` (python-service.ts lines 138-150); every
field is optional in the TypeScript type. -/
structure PythonServiceSettings where
  path : Option String
  value1 : Option String
  image1 : Option String
  value2 : Option String
  image2 : Option String
  displayValues : Option Bool
  useVenv : Option Bool
  venvPath : Option String
  interval : IntervalVal
deriving DecidableEq, Repr

/-- Result of `PythonBackgroundService.normalizeSettings`: the spread of the
raw settings with `interval`, `displayValues`, `useVenv` made definite. -/
structure NormalizedSettings where
  path : Option String
  value1 : Option String
  image1 : Option String
  value2 : Option String
  image2 : Option String
  venvPath : Option String
  interval : ℚ
  displayValues : Bool
  useVenv : Bool
deriving DecidableEq, Repr

/-- `PythonBackgroundService.normalizeSettings` (part_001 lines 218-227):
`interval` becomes the coerced value when finite and `> 0`, else `10`;
`displayValues` and `useVenv` are passed through `Boolean(...)`. -/
def normalizeSettings (s : PythonServiceSettings) : NormalizedSettings :=
  let interval : ℚ :=
    match intervalRaw s.interval with
    | some q => if 0 < q then q else 10
    | none => 10
  { path := s.path, value1 := s.value1, image1 := s.image1,
    value2 := s.value2, image2 := s.image2, venvPath := s.venvPath,
    interval := interval,
    displayValues := s.displayValues.getD false,
    useVenv := s.useVenv.getD false }

/-- JavaScript `Array.prototype.findIndex`, with `-1` modelled as `none`. -/
def findIndex {α : Type} (p : α → Bool) : List α → Option Nat
  | [] => none
  | a :: l => if p a then some 0 else (findIndex p l).map (· + 1)

/-- JavaScript truthiness of an optional string (`undefined` and `""` are
falsy). -/
def truthyStr : Option String → Bool
  | some s => !(s == "")
  | none => false

/-- `PythonService.getInterval` (python-service.ts lines 102-113): a finite
strictly positive number (numbers directly, strings via `Number(value.trim())`)
or `undefined`. -/
def getInterval : IntervalVal → Option ℚ
  | .num j =>
      match j with
      | some q => if 0 < q then some q else none
      | none => none
  | .str s =>
      match jsNumberOfString (jsTrim s) with
      | some q => if 0 < q then some q else none
      | none => none
  | .undef => none

/-- `PythonService.checkSettingsComplete` (python-service.ts lines 93-100):
`settings.path && interval` with JS truthiness. -/
def checkSettingsComplete (s : PythonServiceSettings) : Bool :=
  truthyStr s.path && (getInterval s.interval).isSome

/-- `ServiceState` (part_001 lines 27-30). -/
inductive ServiceState where
  | running : ServiceState
  | stopped : ServiceState
deriving DecidableEq, Repr

/-- The event object handed to the handlers: the action id and the settings
payload (the only parts the registry reads). -/
structure Ev where
  actionId : String
  settings : PythonServiceSettings
deriving DecidableEq, Repr

/-- `TrackedAction` (part_001 lines 32-36). -/
structure TrackedAction where
  id : String
  ev : Ev
  timerId : Option Nat
deriving DecidableEq, Repr

/-- The state of `PythonBackgroundService` plus an explicit model of the
Node timer environment: `liveTimers` holds the handles of the intervals
installed by `setInterval` and not yet cleared, with the interval in
seconds; `nextTimerId` supplies fresh handles. -/
structure BgState where
  trackedActions : List TrackedAction
  state : ServiceState
  liveTimers : List (Nat × ℚ)
  nextTimerId : Nat
deriving DecidableEq, Repr

/-- Node `clearInterval`: the handle stops being live. -/
def clearInterval (t : Nat) (st : BgState) : BgState :=
  { st with liveTimers := st.liveTimers.filter (fun p => p.1 ≠ t) }

/-- `PythonBackgroundService.createTimer` (part_001 lines 209-216):
`setInterval` at the normalized interval of the event's settings; returns
the fresh handle. -/
def createTimer (ev : Ev) (st : BgState) : Nat × BgState :=
  let interval := (normalizeSettings ev.settings).interval
  (st.nextTimerId,
   { st with
     liveTimers := st.liveTimers ++ [(st.nextTimerId, interval)],
     nextTimerId := st.nextTimerId + 1 })

/-- The `if (tracked.timerId) clearInterval(tracked.timerId)` pattern that
`registerAction`, `unregisterAction`, `start` and `stop` all share. -/
def clearEntryTimer (a : TrackedAction) (st : BgState) : BgState :=
  match a.timerId with
  | some t => clearInterval t st
  | none => st

/-- `PythonBackgroundService.registerAction` (part_001 lines 48-66): if the
id is already tracked, clear its timer, store the new event in place
(`{ ...existing, ev }` keeps `id` and the stale `timerId`) and — only when
the service is running — install a fresh timer; a brand-new id is appended
with no timer. -/
def registerAction (ev : Ev) (st : BgState) : BgState :=
  match findIndex (fun a => a.id == ev.actionId) st.trackedActions with
  | some i =>
      match st.trackedActions[i]? with
      | some existing =>
          let st1 := clearEntryTimer existing st
          if st.state = ServiceState.running then
            let p := createTimer ev st1
            { p.2 with
              trackedActions :=
                p.2.trackedActions.set i
                  { id := existing.id, ev := ev, timerId := some p.1 } }
          else
            { st1 with
              trackedActions :=
                st1.trackedActions.set i
                  { id := existing.id, ev := ev, timerId := existing.timerId } }
      | none => st
  | none =>
      { st with
        trackedActions :=
          st.trackedActions ++ [{ id := ev.actionId, ev := ev, timerId := none }] }

/-- `PythonBackgroundService.unregisterAction` (part_001 lines 68-78):
clear the tracked timer if present and splice the entry out; unknown ids
fall through. -/
def unregisterAction (id : String) (st : BgState) : BgState :=
  match findIndex (fun a => a.id == id) st.trackedActions with
  | some i =>
      match st.trackedActions[i]? with
      | some tracked =>
          let st1 := clearEntryTimer tracked st
          { st1 with trackedActions := st1.trackedActions.eraseIdx i }
      | none => st
  | none => st

/-- The `forEach` body of `PythonBackgroundService.start` (part_001 lines
82-87), folded over the tracked list: clear any existing timer and install
a fresh one from the entry's stored event. -/
def startGo : List TrackedAction → BgState → List TrackedAction × BgState
  | [], st => ([], st)
  | a :: rest, st =>
      let st1 := clearEntryTimer a st
      let p := createTimer a.ev st1
      let q := startGo rest p.2
      ({ a with timerId := some p.1 } :: q.1, q.2)

/-- `PythonBackgroundService.start` (part_001 lines 80-90). -/
def start (st : BgState) : BgState :=
  let q := startGo st.trackedActions st
  { q.2 with trackedActions := q.1, state := ServiceState.running }

/-- The `forEach` body of `PythonBackgroundService.stop` (part_001 lines
94-99), folded over the tracked list: clear any existing timer and drop the
handle. -/
def stopGo : List TrackedAction → BgState → List TrackedAction × BgState
  | [], st => ([], st)
  | a :: rest, st =>
      let st1 := clearEntryTimer a st
      let q := stopGo rest st1
      ({ a with timerId := none } :: q.1, q.2)

/-- `PythonBackgroundService.stop` (part_001 lines 92-103). -/
def stop (st : BgState) : BgState :=
  let q := stopGo st.trackedActions st
  { q.2 with trackedActions := q.1, state := ServiceState.stopped }

/-- `PythonBackgroundService.getState` (part_001 lines 105-107). -/
def getState (st : BgState) : ServiceState :=
  st.state

/-- Initial state of the singleton service: no tracked actions, stopped,
no live timers. -/
def initState : BgState :=
  { trackedActions := [], state := ServiceState.stopped,
    liveTimers := [], nextTimerId := 0 }

/-- One registry operation, for quantifying over call sequences. -/
inductive Op where
  | register : Ev → Op
  | unregister : String → Op
  | start : Op
  | stop : Op
deriving DecidableEq, Repr

/-- Apply one registry operation. -/
def applyOp (st : BgState) : Op → BgState
  | .register ev => registerAction ev st
  | .unregister id => unregisterAction id st
  | .start => start st
  | .stop => stop st

/-- Run a sequence of registry operations from the initial state. -/
def runOps (ops : List Op) : BgState :=
  ops.foldl applyOp initState

/-- Which branch `PythonService.onKeyDown` took. -/
inductive KeyOutcome where
  | calledStop : KeyOutcome
  | calledStart : KeyOutcome
  | alerted : KeyOutcome
deriving DecidableEq, Repr

/-- `PythonService.onKeyDown` (python-service.ts lines 70-85): stop when
running; otherwise start when the settings are complete, else alert. -/
def onKeyDown (ev : Ev) (st : BgState) : BgState × KeyOutcome :=
  if getState st = ServiceState.running then (stop st, .calledStop)
  else if checkSettingsComplete ev.settings then (start st, .calledStart)
  else (st, .alerted)

/-- The registry effect of `PythonService.onWillAppear` (python-service.ts
lines 14-36): register only when the settings are complete. -/
def onWillAppearService (ev : Ev) (st : BgState) : BgState :=
  if checkSettingsComplete ev.settings then registerAction ev st else st

/-- The registry effect of `PythonService.onDidReceiveSettings`
(python-service.ts lines 38-56): register unconditionally. -/
def onDidReceiveSettingsService (ev : Ev) (st : BgState) : BgState :=
  registerAction ev st

/-- `pythonErrorMap` (part_001 lines 8-25), in the object's key order —
JavaScript `for (const key in ...)` iterates non-numeric string keys in
insertion order. -/
def pythonErrorMap : List (String × String) :=
  [("SyntaxError", "Python\nSyntax\nError"),
   ("NameError", "Python\nName\nError"),
   ("TypeError", "Python\nType\nError"),
   ("ValueError", "Python\nValue\nError"),
   ("ZeroDivisionError", "Python\nZeroDiv\nError"),
   ("IndexError", "Python\nIndex\nError"),
   ("KeyError", "Python\nKey\nError"),
   ("AttributeError", "Python\nAttribute\nError"),
   ("ImportError", "Python\nImport\nError"),
   ("No such file or directory", "Python\nFile\nError"),
   ("ModuleNotFoundError", "Python\nModule\nError"),
   ("RuntimeError", "Python\nRuntime\nError"),
   ("MemoryError", "Python\nMemory\nError"),
   ("OverflowError", "Python\nOverflow\nError"),
   ("SystemError", "Python\nSystem\nError"),
   ("Microsoft Store", "Python\nnot found\nError")]

/-- The regex `/(?:\r\n|\r|\n)/g` replaced by a single space: `\r\n` counts
as one line break (alternation order), lone `\r` and `\n` as one each. -/
def collapseNewlines : List Char → List Char
  | [] => []
  | '\x0d' :: '\x0a' :: rest => ' ' :: collapseNewlines rest
  | '\x0d' :: rest => ' ' :: collapseNewlines rest
  | '\x0a' :: rest => ' ' :: collapseNewlines rest
  | c :: rest => c :: collapseNewlines rest

/-- Does `l` start with `pre`? -/
def listStartsWith : List Char → List Char → Bool
  | _, [] => true
  | [], _ :: _ => false
  | h :: hs, n :: ns => h = n && listStartsWith hs ns

/-- Is `needle` a contiguous sublist of `hay`? -/
def listIncludes (hay needle : List Char) : Bool :=
  match hay with
  | [] => needle.isEmpty
  | _ :: t => listStartsWith hay needle || listIncludes t needle

/-- JavaScript `String.prototype.includes`: substring containment. -/
def jsIncludes (hay needle : String) : Bool :=
  listIncludes hay.data needle.data

/-- The string the stderr handler classifies (part_001 line 135):
`data.toString().trim().replace(/(?:\r\n|\r|\n)/g, " ")`. -/
def stderrMessage (chunk : String) : String :=
  String.mk (collapseNewlines (jsTrim chunk).data)

/-- The title chosen by the stderr handler (part_001 lines 138-148): scan
`pythonErrorMap` in order, take the label of the first key contained in the
message, else the generic label. -/
def classifyStderr (chunk : String) : String :=
  match pythonErrorMap.find? (fun p => jsIncludes (stderrMessage chunk) p.1) with
  | some p => p.2
  | none => "python\nother\nissue"

/-- Visual effects of one stdout chunk. -/
structure StdoutEffect where
  titleSet : Option String
  imageSet : String
deriving DecidableEq, Repr

/-- The stdout data handler of `executeAction` (part_001 lines 119-132):
mirror the trimmed output as the title when `displayValues` is set, and
independently pick the image by comparing the output with the two
configured (value, image) pairs, falling back to the idle icon. -/
def stdoutHandler (s : NormalizedSettings) (chunk : String) : StdoutEffect :=
  let output := jsTrim chunk
  { titleSet := if s.displayValues then some output else none,
    imageSet :=
      if truthyStr s.image1 && (output == s.value1.getD "") then s.image1.getD ""
      else if truthyStr s.image2 && (output == s.value2.getD "") then s.image2.getD ""
      else "imgs/actions/pyServiceIcon.png" }

/-- What the filesystem reports for a path: a regular file, something else
that exists (a directory), nothing, or a thrown `statSync` error. -/
inductive FsEntry where
  | file : FsEntry
  | dir : FsEntry
  | absent : FsEntry
  | err : FsEntry
deriving DecidableEq, Repr

/-- Node's `path.posix.dirname`: everything before the last separator,
ignoring trailing separators; `/` for root-only paths and `.` when there is
no directory part. -/
def dirname (p : String) : String :=
  match p.data with
  | [] => "."
  | c :: rest =>
      let hasRoot := c = '/'
      let r2 := ((rest.reverse.dropWhile (fun x => x = '/')).dropWhile
                  (fun x => x ≠ '/'))
      if r2.isEmpty then (if hasRoot then "/" else ".")
      else if hasRoot && r2.length = 1 then "//"
      else String.mk ((c :: rest).take r2.length)

/-- `normalizeVenvPath` (part_001 lines 195-207 and python-service.ts lines
120-132), with the filesystem as an explicit oracle: a path reported as an
existing regular file is replaced by its parent directory; a directory, a
missing path or a stat error (the `catch` branch) is returned unchanged. -/
def normalizeVenvPath (fs : String → FsEntry) (venvPath : String) : String :=
  match fs venvPath with
  | .file => dirname venvPath
  | _ => venvPath

/-- The invariant direction that the registry really maintains: an entry
holding a timer handle implies the service is running. -/
def TimerInv (st : BgState) : Prop :=
  ∀ a ∈ st.trackedActions, a.timerId.isSome = true →
    st.state = ServiceState.running

/-- Every live interval handle belongs to some tracked entry — true of all
states reachable from `initState`. -/
def LiveSub (st : BgState) : Prop :=
  ∀ p ∈ st.liveTimers, ∃ a ∈ st.trackedActions, a.timerId = some p.1

/-- Settings with only the interval field populated (used for concrete
interval-normalization instances). -/
def withInterval (v : IntervalVal) : PythonServiceSettings :=
  { path := none, value1 := none, image1 := none, value2 := none,
    image2 := none, displayValues := none, useVenv := none,
    venvPath := none, interval := v }

/-- Complete settings: a script path and interval 5. -/
def settingsA : PythonServiceSettings :=
  { path := some "/s.py", value1 := none, image1 := none, value2 := none,
    image2 := none, displayValues := none, useVenv := none,
    venvPath := none, interval := IntervalVal.num (some 5) }

/-- Incomplete settings: no path, no interval. -/
def settingsB : PythonServiceSettings :=
  { path := none, value1 := none, image1 := none, value2 := none,
    image2 := none, displayValues := none, useVenv := none,
    venvPath := none, interval := IntervalVal.undef }

/-- A concrete event for key `"a"` with complete settings. -/
def evA : Ev := { actionId := "a", settings := settingsA }

/-- A concrete event for key `"b"` with incomplete settings. -/
def evB : Ev := { actionId := "b", settings := settingsB }

/-- A concrete tracked entry for key `"a"` holding timer handle `3`. -/
def trackedA3 : TrackedAction := { id := "a", ev := evA, timerId := some 3 }

/-- A concrete state: key `"a"` tracked with live timer handle `3`, service
running, handle `3` live at 5 seconds, next fresh handle `7`. -/
def stRunA : BgState :=
  { trackedActions := [trackedA3],
    state := ServiceState.running,
    liveTimers := [(3, 5)],
    nextTimerId := 7 }

/-- A concrete running state with nothing tracked. -/
def stRunEmpty : BgState :=
  { trackedActions := [], state := ServiceState.running,
    liveTimers := [], nextTimerId := 0 }

/-- A concrete re-registration event for key `"a"` with a new string
interval `"5"`. -/
def evA2 : Ev := { actionId := "a", settings := withInterval (IntervalVal.str "5") }

/-- A concrete filesystem: exactly `/venv/pyvenv.cfg` is a regular file,
everything else is a directory. -/
def fsW : String → FsEntry :=
  fun q => if q = "/venv/pyvenv.cfg" then FsEntry.file else FsEntry.dir

theorem findIndex_lt_length {α : Type} {p : α → Bool} {l : List α} {i : Nat}
    (h : findIndex p l = some i) : i < l.length := by
  induction l generalizing i with
  | nil => simp [findIndex] at h
  | cons a t ih =>
      simp only [findIndex] at h
      by_cases hpa : p a = true
      · rw [if_pos hpa] at h
        injection h with h
        subst h
        simp
      · rw [if_neg hpa] at h
        cases hm : findIndex p t with
        | none => rw [hm] at h; simp at h
        | some j =>
            rw [hm] at h
            simp only [Option.map_some'] at h
            injection h with h
            subst h
            have := ih hm
            simp only [List.length_cons]
            omega

theorem findIndex_getElem {α : Type} {p : α → Bool} {l : List α} {i : Nat}
    (h : findIndex p l = some i) : ∃ a, l[i]? = some a ∧ p a = true := by
  induction l generalizing i with
  | nil => simp [findIndex] at h
  | cons a t ih =>
      simp only [findIndex] at h
      by_cases hpa : p a = true
      · rw [if_pos hpa] at h
        injection h with h
        subst h
        exact ⟨a, by simp, hpa⟩
      · rw [if_neg hpa] at h
        cases hm : findIndex p t with
        | none => rw [hm] at h; simp at h
        | some j =>
            rw [hm] at h
            simp only [Option.map_some'] at h
            injection h with h
            subst h
            obtain ⟨b, hb, hpb⟩ := ih hm
            exact ⟨b, by simpa using hb, hpb⟩

theorem findIndex_none_of_all {α : Type} {p : α → Bool} {l : List α}
    (h : ∀ a ∈ l, p a = false) : findIndex p l = none := by
  induction l with
  | nil => rfl
  | cons a t ih =>
      have hpa := h a (List.mem_cons_self a t)
      simp [findIndex, hpa, ih (fun b hb => h b (List.mem_cons_of_mem a hb))]

theorem clearEntryTimer_trackedActions (a : TrackedAction) (st : BgState) :
    (clearEntryTimer a st).trackedActions = st.trackedActions := by
  cases h : a.timerId <;> simp [clearEntryTimer, h, clearInterval]

theorem clearEntryTimer_state (a : TrackedAction) (st : BgState) :
    (clearEntryTimer a st).state = st.state := by
  cases h : a.timerId <;> simp [clearEntryTimer, h, clearInterval]

theorem clearEntryTimer_nextTimerId (a : TrackedAction) (st : BgState) :
    (clearEntryTimer a st).nextTimerId = st.nextTimerId := by
  cases h : a.timerId <;> simp [clearEntryTimer, h, clearInterval]

theorem registerAction_not_tracked (ev : Ev) (st : BgState)
    (h : findIndex (fun a => a.id == ev.actionId) st.trackedActions = none) :
    registerAction ev st =
      { st with trackedActions :=
          st.trackedActions ++ [{ id := ev.actionId, ev := ev, timerId := none }] } := by
  unfold registerAction
  rw [h]

theorem registerAction_tracked_running (ev : Ev) (st : BgState) {i : Nat}
    {existing : TrackedAction}
    (hf : findIndex (fun a => a.id == ev.actionId) st.trackedActions = some i)
    (hg : st.trackedActions[i]? = some existing)
    (hrun : st.state = ServiceState.running) :
    registerAction ev st =
      { trackedActions := st.trackedActions.set i
          { id := existing.id, ev := ev, timerId := some st.nextTimerId },
        state := st.state,
        liveTimers := (clearEntryTimer existing st).liveTimers
          ++ [(st.nextTimerId, (normalizeSettings ev.settings).interval)],
        nextTimerId := st.nextTimerId + 1 } := by
  unfold registerAction
  simp only [hf, hg]
  rw [if_pos hrun]
  simp [createTimer, clearEntryTimer_trackedActions, clearEntryTimer_state,
        clearEntryTimer_nextTimerId]

theorem registerAction_tracked_stopped (ev : Ev) (st : BgState) {i : Nat}
    {existing : TrackedAction}
    (hf : findIndex (fun a => a.id == ev.actionId) st.trackedActions = some i)
    (hg : st.trackedActions[i]? = some existing)
    (hns : ¬ st.state = ServiceState.running) :
    registerAction ev st =
      { trackedActions := st.trackedActions.set i
          { id := existing.id, ev := ev, timerId := existing.timerId },
        state := st.state,
        liveTimers := (clearEntryTimer existing st).liveTimers,
        nextTimerId := st.nextTimerId } := by
  unfold registerAction
  simp only [hf, hg]
  rw [if_neg hns]
  simp [clearEntryTimer_trackedActions, clearEntryTimer_state,
        clearEntryTimer_nextTimerId]

theorem unregisterAction_not_tracked (id : String) (st : BgState)
    (h : findIndex (fun a => a.id == id) st.trackedActions = none) :
    unregisterAction id st = st := by
  unfold unregisterAction
  rw [h]

theorem unregisterAction_tracked (id : String) (st : BgState) {i : Nat}
    {tracked : TrackedAction}
    (hf : findIndex (fun a => a.id == id) st.trackedActions = some i)
    (hg : st.trackedActions[i]? = some tracked) :
    unregisterAction id st =
      { trackedActions := st.trackedActions.eraseIdx i,
        state := st.state,
        liveTimers := (clearEntryTimer tracked st).liveTimers,
        nextTimerId := st.nextTimerId } := by
  unfold unregisterAction
  simp only [hf, hg]
  simp [clearEntryTimer_trackedActions, clearEntryTimer_state,
        clearEntryTimer_nextTimerId]

theorem stopGo_fst (l : List TrackedAction) (st : BgState) :
    (stopGo l st).1 = l.map (fun a => { a with timerId := none }) := by
  induction l generalizing st with
  | nil => rfl
  | cons a t ih => simp [stopGo, ih]

theorem startGo_fst_timers (l : List TrackedAction) (st : BgState) :
    ∀ a ∈ (startGo l st).1, a.timerId.isSome = true := by
  induction l generalizing st with
  | nil => intro a ha; simp [startGo] at ha
  | cons b t ih =>
      intro a ha
      simp only [startGo] at ha
      rcases List.mem_cons.1 ha with h1 | h1
      · subst h1; simp
      · exact ih _ a h1

theorem stop_state (st : BgState) : (stop st).state = ServiceState.stopped := rfl

theorem start_state (st : BgState) : (start st).state = ServiceState.running := rfl

theorem stop_trackedActions (st : BgState) :
    (stop st).trackedActions =
      st.trackedActions.map (fun a => { a with timerId := none }) := by
  simp [stop, stopGo_fst]

theorem timerInv_initState : TimerInv initState := by
  intro a ha
  simp [initState] at ha

theorem timerInv_registerAction (ev : Ev) (st : BgState) (h : TimerInv st) :
    TimerInv (registerAction ev st) := by
  cases hf : findIndex (fun a => a.id == ev.actionId) st.trackedActions with
  | none =>
      rw [registerAction_not_tracked ev st hf]
      intro a ha hs
      rcases List.mem_append.1 ha with h1 | h1
      · exact h a h1 hs
      · simp at h1
        subst h1
        simp at hs
  | some i =>
      obtain ⟨existing, hg, hpred⟩ := findIndex_getElem hf
      by_cases hrun : st.state = ServiceState.running
      · rw [registerAction_tracked_running ev st hf hg hrun]
        intro a ha hs
        exact hrun
      · rw [registerAction_tracked_stopped ev st hf hg hrun]
        intro a ha hs
        rcases List.mem_or_eq_of_mem_set ha with h1 | h1
        · exact h a h1 hs
        · subst h1
          simp at hs
          exact h existing (List.getElem?_mem hg) (by simpa using hs)

theorem timerInv_unregisterAction (id : String) (st : BgState) (h : TimerInv st) :
    TimerInv (unregisterAction id st) := by
  cases hf : findIndex (fun a => a.id == id) st.trackedActions with
  | none =>
      rw [unregisterAction_not_tracked id st hf]
      exact h
  | some i =>
      obtain ⟨tracked, hg, hpred⟩ := findIndex_getElem hf
      rw [unregisterAction_tracked id st hf hg]
      intro a ha hs
      exact h a ((List.eraseIdx_sublist st.trackedActions i).mem ha) hs

theorem timerInv_start (st : BgState) : TimerInv (start st) :=
  fun _ _ _ => rfl

theorem timerInv_stop (st : BgState) : TimerInv (stop st) := by
  intro a ha hs
  rw [stop_trackedActions] at ha
  simp only [List.mem_map] at ha
  obtain ⟨b, hb, rfl⟩ := ha
  simp at hs

theorem timerInv_applyOp (st : BgState) (op : Op) (h : TimerInv st) :
    TimerInv (applyOp st op) := by
  cases op with
  | register ev => exact timerInv_registerAction ev st h
  | unregister id => exact timerInv_unregisterAction id st h
  | start => exact timerInv_start st
  | stop => exact timerInv_stop st

theorem timerInv_foldl (ops : List Op) :
    ∀ st : BgState, TimerInv st → TimerInv (ops.foldl applyOp st) := by
  induction ops with
  | nil => intro st h; exact h
  | cons op rest ih => intro st h; exact ih _ (timerInv_applyOp st op h)

/-- C1 (counterexample): starting the service on the empty registry and then
registering a brand-new id leaves that entry tracked with no timer handle
while the run-state is `running`, so the claimed biconditional (handle ⟺
running ∧ tracked) fails on this reachable state. -/
theorem timer_invariant_iff_cex :
    ¬ (∀ a ∈ (runOps [Op.start, Op.register evA]).trackedActions,
        (a.timerId.isSome = true ↔
          (runOps [Op.start, Op.register evA]).state = ServiceState.running)) := by
  decide

/-- C1 (amended): for every sequence of register/unregister/start/stop calls
from the initial state, every tracked entry that holds a timer handle has
the run-state `running` — the forward direction of the claimed invariant.
The reverse direction fails: a brand-new id registered while running gets
no timer until the next `start()`. -/
theorem timer_handle_implies_running (ops : List Op) :
    ∀ a ∈ (runOps ops).trackedActions, a.timerId.isSome = true →
      (runOps ops).state = ServiceState.running :=
  timerInv_foldl ops initState timerInv_initState

/-- C1 (witness): the amended theorem applied to the sequence
register-then-start, whose single entry holds timer handle 0. -/
theorem timer_handle_implies_running_witness :
    (runOps [Op.register evA, Op.start]).state = ServiceState.running :=
  timer_handle_implies_running [Op.register evA, Op.start]
    { id := "a", ev := evA, timerId := some 0 } (by decide) (by decide)

/-- C2: when the service is running, a key press always calls `stop()`
(whatever the settings); when stopped with complete settings it calls
`start()`; when stopped with incomplete settings it does not start and
shows an alert instead. -/
theorem keydown_toggle_semantics (ev : Ev) (st : BgState) :
    (st.state = ServiceState.running →
        onKeyDown ev st = (stop st, KeyOutcome.calledStop))
    ∧ (st.state = ServiceState.stopped → checkSettingsComplete ev.settings = true →
        onKeyDown ev st = (start st, KeyOutcome.calledStart))
    ∧ (st.state = ServiceState.stopped → checkSettingsComplete ev.settings = false →
        onKeyDown ev st = (st, KeyOutcome.alerted)) := by
  refine ⟨?_, ?_, ?_⟩
  · intro h
    simp [onKeyDown, getState, h]
  · intro h hc
    simp [onKeyDown, getState, h, hc]
  · intro h hc
    simp [onKeyDown, getState, h, hc]

/-- C2 (witness): press while running stops even with complete settings;
press while stopped starts with complete settings and alerts with
incomplete ones. -/
theorem keydown_toggle_semantics_witness :
    onKeyDown evA stRunEmpty = (stop stRunEmpty, KeyOutcome.calledStop)
    ∧ onKeyDown evA initState = (start initState, KeyOutcome.calledStart)
    ∧ onKeyDown evB initState = (initState, KeyOutcome.alerted) :=
  ⟨(keydown_toggle_semantics evA stRunEmpty).1 rfl,
   (keydown_toggle_semantics evA initState).2.1 rfl (by decide),
   (keydown_toggle_semantics evB initState).2.2 rfl (by decide)⟩

/-- C3: the normalized interval equals the coerced numeric value whenever
that value is finite and strictly positive, and defaults to 10 otherwise;
concretely `"5"` gives 5, `7.5` and `"7.5"` give 15/2, while `0`, `-3`,
`"abc"` and `undefined` give 10. -/
theorem interval_normalization (s : PythonServiceSettings) :
    (∀ q : ℚ, intervalRaw s.interval = some q → 0 < q →
        (normalizeSettings s).interval = q)
    ∧ (∀ q : ℚ, intervalRaw s.interval = some q → q ≤ 0 →
        (normalizeSettings s).interval = 10)
    ∧ (intervalRaw s.interval = none → (normalizeSettings s).interval = 10)
    ∧ (normalizeSettings (withInterval (IntervalVal.str "5"))).interval = 5
    ∧ (normalizeSettings (withInterval (IntervalVal.num (some (15/2))))).interval = 15/2
    ∧ (normalizeSettings (withInterval (IntervalVal.str "7.5"))).interval = 15/2
    ∧ (normalizeSettings (withInterval (IntervalVal.num (some 0)))).interval = 10
    ∧ (normalizeSettings (withInterval (IntervalVal.num (some (-3))))).interval = 10
    ∧ (normalizeSettings (withInterval (IntervalVal.str "abc"))).interval = 10
    ∧ (normalizeSettings (withInterval IntervalVal.undef)).interval = 10 := by
  refine ⟨?_, ?_, ?_, ?_, ?_, ?_, ?_, ?_, ?_, ?_⟩
  · intro q h hpos
    simp [normalizeSettings, h, hpos]
  · intro q h hnp
    simp [normalizeSettings, h, not_lt.2 hnp]
  · intro h
    simp [normalizeSettings, h]
  · decide
  · have h1 : intervalRaw (withInterval (IntervalVal.num (some (15/2)))).interval
        = some (15/2) := rfl
    simp only [normalizeSettings, h1]
    norm_num
  · have h1 : jsNumberOfString "7.5" = some (((7:ℕ):ℚ) + ((5:ℕ):ℚ)/(10:ℚ)^1) := rfl
    have h2 : intervalRaw (withInterval (IntervalVal.str "7.5")).interval
        = some (((7:ℕ):ℚ) + ((5:ℕ):ℚ)/(10:ℚ)^1) := h1
    simp only [normalizeSettings, h2]
    norm_num
  · decide
  · have h1 : intervalRaw (withInterval (IntervalVal.num (some (-3)))).interval
        = some (-3) := rfl
    simp only [normalizeSettings, h1]
    norm_num
  · decide
  · decide

/-- C3 (witness): the general positive-value clause applied to the string
input `"5"`. -/
theorem interval_normalization_witness :
    intervalRaw (withInterval (IntervalVal.str "5")).interval = some 5
    ∧ (normalizeSettings (withInterval (IntervalVal.str "5"))).interval = 5 :=
  ⟨by decide,
   (interval_normalization (withInterval (IntervalVal.str "5"))).1 5
     (by decide) (by norm_num)⟩

/-- C4 (counterexample): a stderr chunk containing both `"TypeError"` and
`"ZeroDivisionError"` classifies as the TypeError label — the table is
scanned in order and TypeError comes first — so "contains ZeroDivisionError
anywhere yields the division label" is false as stated. -/
theorem stderr_zerodiv_anywhere_cex :
    jsIncludes (stderrMessage "TypeError ZeroDivisionError") "ZeroDivisionError" = true
    ∧ classifyStderr "TypeError ZeroDivisionError" = "Python\nType\nError"
    ∧ classifyStderr "TypeError ZeroDivisionError" ≠ "Python\nZeroDiv\nError" := by
  decide

/-- C4 (amended): a message containing `"ZeroDivisionError"` and none of the
patterns listed before it in the table (SyntaxError, NameError, TypeError,
ValueError) yields the division-error label; a message containing none of
the table's substrings yields the generic label. -/
theorem stderr_classification (chunk : String) :
    ((jsIncludes (stderrMessage chunk) "ZeroDivisionError" = true ∧
      jsIncludes (stderrMessage chunk) "SyntaxError" = false ∧
      jsIncludes (stderrMessage chunk) "NameError" = false ∧
      jsIncludes (stderrMessage chunk) "TypeError" = false ∧
      jsIncludes (stderrMessage chunk) "ValueError" = false) →
      classifyStderr chunk = "Python\nZeroDiv\nError")
    ∧ ((∀ p ∈ pythonErrorMap, jsIncludes (stderrMessage chunk) p.1 = false) →
      classifyStderr chunk = "python\nother\nissue") := by
  constructor
  · rintro ⟨h1, h2, h3, h4, h5⟩
    simp [classifyStderr, pythonErrorMap, List.find?_cons, h1, h2, h3, h4, h5]
  · intro h
    have hn : pythonErrorMap.find? (fun p => jsIncludes (stderrMessage chunk) p.1)
        = none :=
      List.find?_eq_none.2 (fun p hp => by simp [h p hp])
    simp [classifyStderr, hn]

/-- C4 (witness): a pure ZeroDivisionError message classifies as the
division label, and an unrecognized message as the generic label. -/
theorem stderr_classification_witness :
    classifyStderr "ZeroDivisionError: division by zero" = "Python\nZeroDiv\nError"
    ∧ classifyStderr "all fine" = "python\nother\nissue" :=
  ⟨(stderr_classification "ZeroDivisionError: division by zero").1
      ⟨by decide, by decide, by decide, by decide, by decide⟩,
   (stderr_classification "all fine").2 (by decide)⟩

/-- C5: re-registering an already-tracked id while the service is running
keeps the table size, replaces the entry in place (same index, same id, new
event, fresh handle), removes the old timer from the live set and installs
a fresh one at the new settings' normalized interval. -/
theorem reregister_replaces_timer (ev : Ev) (st : BgState) (i : Nat)
    (existing : TrackedAction) (t : Nat)
    (hrun : st.state = ServiceState.running)
    (hf : findIndex (fun a => a.id == ev.actionId) st.trackedActions = some i)
    (hg : st.trackedActions[i]? = some existing)
    (ht : existing.timerId = some t) :
    (registerAction ev st).trackedActions.length = st.trackedActions.length
    ∧ (registerAction ev st).trackedActions =
        st.trackedActions.set i
          { id := existing.id, ev := ev, timerId := some st.nextTimerId }
    ∧ (registerAction ev st).liveTimers =
        st.liveTimers.filter (fun p => p.1 ≠ t)
          ++ [(st.nextTimerId, (normalizeSettings ev.settings).interval)] := by
  rw [registerAction_tracked_running ev st hf hg hrun]
  refine ⟨by simp, rfl, ?_⟩
  simp [clearEntryTimer, ht, clearInterval]

/-- C5 (witness): re-registering key `"a"` with interval `"5"` in the
concrete running state replaces its timer 3 by fresh timer 7 at 5 seconds
without changing the table size. -/
theorem reregister_replaces_timer_witness :
    (registerAction evA2 stRunA).trackedActions.length
      = stRunA.trackedActions.length
    ∧ (registerAction evA2 stRunA).trackedActions =
        stRunA.trackedActions.set 0
          { id := trackedA3.id, ev := evA2, timerId := some stRunA.nextTimerId }
    ∧ (registerAction evA2 stRunA).liveTimers =
        stRunA.liveTimers.filter (fun p => p.1 ≠ 3)
          ++ [(stRunA.nextTimerId, (normalizeSettings evA2.settings).interval)] :=
  reregister_replaces_timer evA2 stRunA 0 trackedA3 3
    (by decide) (by decide) (by decide) (by decide)

theorem mem_set_of_ne {α : Type} {l : List α} {a : α} :
    ∀ {i : Nat} {x : α}, a ∈ l → l[i]? ≠ some a → a ∈ l.set i x := by
  induction l with
  | nil => intro i x ha; simp at ha
  | cons b t ih =>
      intro i x ha hne
      cases i with
      | zero =>
          rcases List.mem_cons.1 ha with h | h
          · exact absurd (by simp [h]) hne
          · simp only [List.set]
            exact List.mem_cons_of_mem _ h
      | succ j =>
          rcases List.mem_cons.1 ha with h | h
          · subst h
            simp [List.set]
          · simp only [List.set]
            exact List.mem_cons_of_mem _ (ih h (by simpa using hne))

theorem mem_eraseIdx_of_ne {α : Type} {l : List α} {a : α} :
    ∀ {i : Nat}, a ∈ l → l[i]? ≠ some a → a ∈ l.eraseIdx i := by
  induction l with
  | nil => intro i ha; simp at ha
  | cons b t ih =>
      intro i ha hne
      cases i with
      | zero =>
          rcases List.mem_cons.1 ha with h | h
          · exact absurd (by simp [h]) hne
          · simpa [List.eraseIdx] using h
      | succ j =>
          rcases List.mem_cons.1 ha with h | h
          · subst h
            simp [List.eraseIdx]
          · simp only [List.eraseIdx]
            exact List.mem_cons_of_mem _ (ih h (by simpa using hne))

theorem liveSub_initState : LiveSub initState := by
  intro p hp
  simp [initState] at hp

theorem liveSub_registerAction (ev : Ev) (st : BgState) (h : LiveSub st) :
    LiveSub (registerAction ev st) := by
  cases hf : findIndex (fun a => a.id == ev.actionId) st.trackedActions with
  | none =>
      rw [registerAction_not_tracked ev st hf]
      intro p hp
      obtain ⟨a, ha, hat⟩ := h p hp
      exact ⟨a, List.mem_append_left _ ha, hat⟩
  | some i =>
      obtain ⟨existing, hg, hpred⟩ := findIndex_getElem hf
      have hlt : i < st.trackedActions.length := findIndex_lt_length hf
      have hclear : ∀ p ∈ (clearEntryTimer existing st).liveTimers,
          p ∈ st.liveTimers ∧ existing.timerId ≠ some p.1 := by
        intro p hp
        cases hext : existing.timerId with
        | none =>
            rw [clearEntryTimer, hext] at hp
            exact ⟨hp, by simp⟩
        | some t =>
            rw [clearEntryTimer, hext] at hp
            simp only [clearInterval, List.mem_filter, decide_eq_true_eq] at hp
            refine ⟨hp.1, ?_⟩
            intro hco
            exact hp.2 (Option.some.inj hco).symm
      by_cases hrun : st.state = ServiceState.running
      · rw [registerAction_tracked_running ev st hf hg hrun]
        intro p hp
        rcases List.mem_append.1 hp with h1 | h1
        · obtain ⟨hmem, hdiff⟩ := hclear p h1
          obtain ⟨a, ha, hat⟩ := h p hmem
          have hne : a ≠ existing := by
            intro he
            rw [he] at hat
            exact hdiff hat
          refine ⟨a, mem_set_of_ne ha ?_, hat⟩
          rw [hg]
          intro hco
          exact hne (Option.some.inj hco).symm
        · simp only [List.mem_singleton] at h1
          subst h1
          exact ⟨{ id := existing.id, ev := ev, timerId := some st.nextTimerId },
                 List.getElem?_mem (List.getElem?_set_self hlt), rfl⟩
      · rw [registerAction_tracked_stopped ev st hf hg hrun]
        intro p hp
        obtain ⟨hmem, hdiff⟩ := hclear p hp
        obtain ⟨a, ha, hat⟩ := h p hmem
        have hne : a ≠ existing := by
          intro he
          rw [he] at hat
          exact hdiff hat
        refine ⟨a, mem_set_of_ne ha ?_, hat⟩
        rw [hg]
        intro hco
        exact hne (Option.some.inj hco).symm

theorem liveSub_unregisterAction (id : String) (st : BgState) (h : LiveSub st) :
    LiveSub (unregisterAction id st) := by
  cases hf : findIndex (fun a => a.id == id) st.trackedActions with
  | none =>
      rw [unregisterAction_not_tracked id st hf]
      exact h
  | some i =>
      obtain ⟨tracked, hg, hpred⟩ := findIndex_getElem hf
      rw [unregisterAction_tracked id st hf hg]
      intro p hp
      have hclear : p ∈ st.liveTimers ∧ tracked.timerId ≠ some p.1 := by
        cases hext : tracked.timerId with
        | none =>
            rw [clearEntryTimer, hext] at hp
            exact ⟨hp, by simp⟩
        | some t =>
            rw [clearEntryTimer, hext] at hp
            simp only [clearInterval, List.mem_filter, decide_eq_true_eq] at hp
            refine ⟨hp.1, ?_⟩
            intro hco
            exact hp.2 (Option.some.inj hco).symm
      obtain ⟨hmem, hdiff⟩ := hclear
      obtain ⟨a, ha, hat⟩ := h p hmem
      have hne : a ≠ tracked := by
        intro he
        rw [he] at hat
        exact hdiff hat
      refine ⟨a, mem_eraseIdx_of_ne ha ?_, hat⟩
      rw [hg]
      intro hco
      exact hne (Option.some.inj hco).symm

theorem startGo_cover (l : List TrackedAction) (st : BgState) :
    ∀ p ∈ (startGo l st).2.liveTimers,
      (∃ a ∈ (startGo l st).1, a.timerId = some p.1)
      ∨ (p ∈ st.liveTimers ∧ ∀ a ∈ l, a.timerId ≠ some p.1) := by
  induction l generalizing st with
  | nil =>
      intro p hp
      right
      exact ⟨hp, by simp⟩
  | cons a t ih =>
      intro p hp
      simp only [startGo] at hp ⊢
      rcases ih _ p hp with h1 | ⟨hmem, hnone⟩
      · obtain ⟨b, hb, hbt⟩ := h1
        exact Or.inl ⟨b, List.mem_cons_of_mem _ hb, hbt⟩
      · simp only [createTimer, List.mem_append] at hmem
        rcases hmem with h2 | h2
        · right
          cases hat : a.timerId with
          | none =>
              rw [clearEntryTimer, hat] at h2
              refine ⟨h2, ?_⟩
              intro b hb
              rcases List.mem_cons.1 hb with hba | hbt
              · subst hba
                simp [hat]
              · exact hnone b hbt
          | some ta =>
              rw [clearEntryTimer, hat] at h2
              simp only [clearInterval, List.mem_filter, decide_eq_true_eq] at h2
              refine ⟨h2.1, ?_⟩
              intro b hb
              rcases List.mem_cons.1 hb with hba | hbt
              · subst hba
                simp [hat, Ne.symm h2.2]
              · exact hnone b hbt
        · left
          simp only [List.mem_singleton] at h2
          refine ⟨{ a with timerId := some (clearEntryTimer a st).nextTimerId },
                  List.mem_cons_self _ _, ?_⟩
          rw [h2]

theorem liveSub_start (st : BgState) (h : LiveSub st) : LiveSub (start st) := by
  intro p hp
  rcases startGo_cover st.trackedActions st p hp with h1 | ⟨hmem, hnone⟩
  · exact h1
  · obtain ⟨a, ha, hat⟩ := h p hmem
    exact absurd hat (hnone a ha)

theorem stopGo_liveTimers (l : List TrackedAction) (st : BgState) :
    (stopGo l st).2.liveTimers
      = st.liveTimers.filter (fun p => l.all (fun a => !(a.timerId == some p.1))) := by
  induction l generalizing st with
  | nil => simp [stopGo]
  | cons a t ih =>
      simp only [stopGo]
      rw [ih]
      cases hat : a.timerId with
      | none =>
          rw [clearEntryTimer, hat]
          apply List.filter_congr
          intro p hp
          simp [hat]
      | some ta =>
          rw [clearEntryTimer, hat]
          simp only [clearInterval, List.filter_filter]
          apply List.filter_congr
          intro p hp
          by_cases hpt : p.1 = ta
          · simp [hat, hpt]
          · simp [hat, hpt, Ne.symm hpt]

theorem stop_liveTimers_of_liveSub (st : BgState) (h : LiveSub st) :
    (stop st).liveTimers = [] := by
  have hs : (stop st).liveTimers
      = st.liveTimers.filter
          (fun p => st.trackedActions.all (fun a => !(a.timerId == some p.1))) := by
    simp [stop, stopGo_liveTimers]
  rw [hs]
  rw [List.filter_eq_nil_iff]
  intro p hp
  obtain ⟨a, ha, hat⟩ := h p hp
  simp only [List.all_eq_true, Bool.not_eq_true']
  intro hall
  have := hall a ha
  rw [hat] at this
  simp at this

theorem liveSub_applyOp (st : BgState) (op : Op) (h : LiveSub st) :
    LiveSub (applyOp st op) := by
  cases op with
  | register ev => exact liveSub_registerAction ev st h
  | unregister id => exact liveSub_unregisterAction id st h
  | start => exact liveSub_start st h
  | stop =>
      intro p hp
      simp only [applyOp] at hp
      rw [stop_liveTimers_of_liveSub st h] at hp
      simp at hp

theorem liveSub_foldl (ops : List Op) :
    ∀ st : BgState, LiveSub st → LiveSub (ops.foldl applyOp st) := by
  induction ops with
  | nil => intro st h; exact h
  | cons op rest ih => intro st h; exact ih _ (liveSub_applyOp st op h)

theorem liveSub_runOps (ops : List Op) : LiveSub (runOps ops) :=
  liveSub_foldl ops initState liveSub_initState

/-- C6: from every reachable registry state, `start()` immediately followed
by `stop()` leaves the run-state stopped, no tracked entry holding a timer
handle, and zero live timers, however many entries were tracked. -/
theorem start_then_stop_no_timers (ops : List Op) :
    (stop (start (runOps ops))).state = ServiceState.stopped
    ∧ (∀ a ∈ (stop (start (runOps ops))).trackedActions, a.timerId = none)
    ∧ (stop (start (runOps ops))).liveTimers = [] := by
  refine ⟨rfl, ?_, ?_⟩
  · intro a ha
    rw [stop_trackedActions] at ha
    simp only [List.mem_map] at ha
    obtain ⟨b, hb, rfl⟩ := ha
    rfl
  · exact stop_liveTimers_of_liveSub (start (runOps ops))
      (liveSub_start (runOps ops) (liveSub_runOps ops))

/-- C6 (witness): applied after registering key `"a"`: its entry survives
start-then-stop with no handle and the live-timer set is empty. -/
theorem start_then_stop_no_timers_witness :
    (stop (start (runOps [Op.register evA]))).state = ServiceState.stopped
    ∧ ({ id := "a", ev := evA, timerId := none } : TrackedAction).timerId = none
    ∧ (stop (start (runOps [Op.register evA]))).liveTimers = [] :=
  ⟨(start_then_stop_no_timers [Op.register evA]).1,
   (start_then_stop_no_timers [Op.register evA]).2.1
     { id := "a", ev := evA, timerId := none } (by decide),
   (start_then_stop_no_timers [Op.register evA]).2.2⟩

/-- C7: on a filesystem where the parent of a regular file is never itself a
regular file, `normalizeVenvPath` is idempotent; a path reported as a
regular file maps to its parent directory, and any other path (directory,
missing, or stat error) is returned unchanged. -/
theorem normalizeVenvPath_idempotent (fs : String → FsEntry) (p : String)
    (hfs : ∀ q, fs q = FsEntry.file → fs (dirname q) ≠ FsEntry.file) :
    normalizeVenvPath fs (normalizeVenvPath fs p) = normalizeVenvPath fs p
    ∧ (fs p = FsEntry.file → normalizeVenvPath fs p = dirname p)
    ∧ (fs p ≠ FsEntry.file → normalizeVenvPath fs p = p) := by
  refine ⟨?_, ?_, ?_⟩
  · cases hp : fs p with
    | file =>
        have h1 : normalizeVenvPath fs p = dirname p := by
          simp [normalizeVenvPath, hp]
        have h2 := hfs p hp
        rw [h1]
        cases hq : fs (dirname p) with
        | file => exact absurd hq h2
        | dir => simp [normalizeVenvPath, hq]
        | absent => simp [normalizeVenvPath, hq]
        | err => simp [normalizeVenvPath, hq]
    | dir => simp [normalizeVenvPath, hp]
    | absent => simp [normalizeVenvPath, hp]
    | err => simp [normalizeVenvPath, hp]
  · intro hp
    simp [normalizeVenvPath, hp]
  · intro hp
    cases hq : fs p with
    | file => exact absurd hq hp
    | dir => simp [normalizeVenvPath, hq]
    | absent => simp [normalizeVenvPath, hq]
    | err => simp [normalizeVenvPath, hq]

/-- C7 (witness): on the concrete filesystem where `/venv/pyvenv.cfg` is the
only regular file, normalizing the marker file gives `/venv`, normalizing
again is stable, and a directory path is unchanged. -/
theorem normalizeVenvPath_idempotent_witness :
    normalizeVenvPath fsW (normalizeVenvPath fsW "/venv/pyvenv.cfg")
      = normalizeVenvPath fsW "/venv/pyvenv.cfg"
    ∧ normalizeVenvPath fsW "/venv/pyvenv.cfg" = dirname "/venv/pyvenv.cfg"
    ∧ dirname "/venv/pyvenv.cfg" = "/venv"
    ∧ normalizeVenvPath fsW "/opt/venv" = "/opt/venv" := by
  have hfs : ∀ q, fsW q = FsEntry.file → fsW (dirname q) ≠ FsEntry.file := by
    intro q hq
    by_cases he : q = "/venv/pyvenv.cfg"
    · subst he
      decide
    · simp [fsW, he] at hq
  have h := normalizeVenvPath_idempotent fsW "/venv/pyvenv.cfg" hfs
  have h2 := normalizeVenvPath_idempotent fsW "/opt/venv" hfs
  exact ⟨h.1, h.2.1 (by decide), by decide, h2.2.2 (by decide)⟩

/-- C8: for every chunk, the title is set to the trimmed text exactly when
`displayValues` is set, and the image is image1 on a first-pair match, else
image2 on a second-pair match, else the idle icon; the title effect is
independent of the image/value configuration and the image effect is
independent of `displayValues`. -/
theorem stdout_handling (s : NormalizedSettings) (chunk : String) :
    ((stdoutHandler s chunk).titleSet
        = (if s.displayValues then some (jsTrim chunk) else none))
    ∧ ((stdoutHandler s chunk).imageSet
        = (if truthyStr s.image1 && (jsTrim chunk == s.value1.getD "")
             then s.image1.getD ""
           else if truthyStr s.image2 && (jsTrim chunk == s.value2.getD "")
             then s.image2.getD ""
           else "imgs/actions/pyServiceIcon.png"))
    ∧ (∀ i1 v1 i2 v2 : Option String,
        (stdoutHandler
            { s with image1 := i1, value1 := v1, image2 := i2, value2 := v2 }
            chunk).titleSet
          = (stdoutHandler s chunk).titleSet)
    ∧ (∀ b : Bool,
        (stdoutHandler { s with displayValues := b } chunk).imageSet
          = (stdoutHandler s chunk).imageSet) :=
  ⟨rfl, rfl, fun _ _ _ _ => rfl, fun _ => rfl⟩

/-- C9: unregistering an id that is not tracked leaves the whole state
unchanged; unregistering a tracked id removes exactly that entry, cancels
its timer if it had one (and leaves the live set alone if it had none), and
never touches the run-state or the fresh-handle counter. -/
theorem unregister_untracked_noop (id : String) (st : BgState) :
    ((∀ a ∈ st.trackedActions, (a.id == id) = false) →
        unregisterAction id st = st)
    ∧ (∀ (i : Nat) (tracked : TrackedAction),
        findIndex (fun a => a.id == id) st.trackedActions = some i →
        st.trackedActions[i]? = some tracked →
        (unregisterAction id st).trackedActions = st.trackedActions.eraseIdx i
        ∧ (unregisterAction id st).state = st.state
        ∧ (∀ t : Nat, tracked.timerId = some t →
            (unregisterAction id st).liveTimers
              = st.liveTimers.filter (fun p => p.1 ≠ t))
        ∧ (tracked.timerId = none →
            (unregisterAction id st).liveTimers = st.liveTimers)
        ∧ (unregisterAction id st).nextTimerId = st.nextTimerId) := by
  constructor
  · intro h
    exact unregisterAction_not_tracked id st (findIndex_none_of_all h)
  · intro i tracked hf hg
    rw [unregisterAction_tracked id st hf hg]
    refine ⟨rfl, rfl, ?_, ?_, rfl⟩
    · intro t ht
      simp [clearEntryTimer, ht, clearInterval]
    · intro ht
      simp [clearEntryTimer, ht]

/-- C9 (witness): unregistering unknown id `"b"` from the concrete running
state is the identity; unregistering tracked id `"a"` removes its entry and
its live timer 3. -/
theorem unregister_untracked_noop_witness :
    unregisterAction "b" stRunA = stRunA
    ∧ (unregisterAction "a" stRunA).trackedActions
        = stRunA.trackedActions.eraseIdx 0
    ∧ (unregisterAction "a" stRunA).liveTimers
        = stRunA.liveTimers.filter (fun p => p.1 ≠ 3) := by
  have h := (unregister_untracked_noop "a" stRunA).2 0 trackedA3
    (by decide) (by decide)
  exact ⟨(unregister_untracked_noop "b" stRunA).1 (by decide),
         h.1, h.2.2.1 3 rfl⟩

theorem registerAction_tracks (ev : Ev) (st : BgState) :
    ∃ a ∈ (registerAction ev st).trackedActions, a.id = ev.actionId := by
  cases hf : findIndex (fun a => a.id == ev.actionId) st.trackedActions with
  | none =>
      rw [registerAction_not_tracked ev st hf]
      exact ⟨{ id := ev.actionId, ev := ev, timerId := none }, by simp, rfl⟩
  | some i =>
      obtain ⟨existing, hg, hpred⟩ := findIndex_getElem hf
      have hid : existing.id = ev.actionId := by simpa using hpred
      have hlt : i < st.trackedActions.length := findIndex_lt_length hf
      by_cases hrun : st.state = ServiceState.running
      · rw [registerAction_tracked_running ev st hf hg hrun]
        exact ⟨_, List.getElem?_mem (List.getElem?_set_self hlt), hid⟩
      · rw [registerAction_tracked_stopped ev st hf hg hrun]
        exact ⟨_, List.getElem?_mem (List.getElem?_set_self hlt), hid⟩

/-- C10: the two registration entry points are asymmetric — `onWillAppear`
registers with the background service only when the settings are complete
(and is a registry no-op otherwise), while `onDidReceiveSettings` always
registers, so even a key with incomplete settings becomes tracked through a
settings change. -/
theorem registration_asymmetry (ev : Ev) (st : BgState) :
    (checkSettingsComplete ev.settings = true →
        onWillAppearService ev st = registerAction ev st)
    ∧ (checkSettingsComplete ev.settings = false →
        onWillAppearService ev st = st)
    ∧ (∃ a ∈ (onDidReceiveSettingsService ev st).trackedActions,
        a.id = ev.actionId) := by
  refine ⟨?_, ?_, registerAction_tracks ev st⟩
  · intro h
    simp [onWillAppearService, h]
  · intro h
    simp [onWillAppearService, h]

/-- C10 (witness): key `"b"` with incomplete settings: appearing leaves the
registry untouched, a settings-change event tracks it. -/
theorem registration_asymmetry_witness :
    onWillAppearService evB initState = initState
    ∧ ∃ a ∈ (onDidReceiveSettingsService evB initState).trackedActions,
        a.id = evB.actionId :=
  ⟨(registration_asymmetry evB initState).2.1 (by decide),
   (registration_asymmetry evB initState).2.2⟩

end PyDeck
